import Mathlib

/-!
Verification of `postprocess.py` (rouvy-tools): a GoPro→GPX post-processing
pipeline.  We shallowly embed the data model (gpxpy tracks/segments/points),
the timestamp-anomaly scanner `find_time_errors`, the filename-ordering logic
of `main`, the map renderer `overlayGPX`, and the `shell` helper, and prove
the specified properties about them.

Timestamps (`datetime` in the source, possibly `None`) are modelled as
`Option ℤ`: the scanner only ever compares timestamps for equality, and `ℤ`
is a faithful stand-in for the set of `datetime` values under equality.
Latitude/longitude/elevation (floats in the source) are modelled as `ℚ`;
no claim here depends on rounding behaviour, only on which points exist and
on the zero-length error path.
-/

/-- A single GPS fix (gpxpy `GPXTrackPoint`): nullable timestamp, latitude,
longitude, nullable elevation. -/
structure GPXTrackPoint where
  time : Option ℤ
  latitude : ℚ
  longitude : ℚ
  elevation : Option ℚ
deriving DecidableEq, Repr

/-- gpxpy `GPXTrackSegment`: an ordered list of points.  `walk()` yields
`(point, index)` pairs in list order. -/
structure GPXTrackSegment where
  points : List GPXTrackPoint
deriving DecidableEq, Repr

/-- gpxpy `GPXTrack`: an ordered list of segments. -/
structure GPXTrack where
  segments : List GPXTrackSegment
deriving DecidableEq, Repr

/-- gpxpy `GPX`: an ordered list of tracks. -/
structure GPX where
  tracks : List GPXTrack
deriving DecidableEq, Repr

/-- The value of the `last_time` loop variable in `find_time_errors`
(postprocess.py line 55): initially the integer `-1` (a sentinel that Python
compares unequal to every `datetime` and to `None`), afterwards always the
previous point's `p.time`. -/
inductive LastTime where
  | sentinel : LastTime
  | ts : Option ℤ → LastTime
deriving DecidableEq, Repr

/-- Python's `p.time == last_time` (line 58): the sentinel `-1` equals neither
a `datetime` nor `None`; two timestamps compare by value; `None == None` is
`True`. -/
def timeEq (t : Option ℤ) : LastTime → Bool
  | .sentinel => false
  | .ts u => t == u

/-- The scanning loop of `find_time_errors` (lines 54-61) on one segment:
walk the points with their indices (starting at `i`), flag index `i` whenever
`p.time == last_time`, and update `last_time` to `p.time` in every iteration.
Returns the `time_errors` list in the order the loop appends to it. -/
def scanErrors (last : LastTime) (i : Nat) : List GPXTrackPoint → List Nat
  | [] => []
  | p :: ps =>
    if timeEq p.time last then i :: scanErrors (.ts p.time) (i + 1) ps
    else scanErrors (.ts p.time) (i + 1) ps

/-- The `time_errors` list computed for a segment's points: the loop starts
with index 0 and `last_time = -1`. -/
def timeErrors (points : List GPXTrackPoint) : List Nat :=
  scanErrors .sentinel 0 points

/-- The per-segment effect of `find_time_errors` (lines 54-67): compute the
error indices; if the list is non-empty and `remove` is set, reverse it and
delete the indices one at a time (`del trkseg.points[i]`, descending order);
otherwise leave the points untouched. -/
def findTimeErrorsSegPoints (points : List GPXTrackPoint) (remove : Bool) :
    List GPXTrackPoint :=
  let tErrors := timeErrors points
  if tErrors ≠ [] ∧ remove = true then
    (tErrors.reverse).foldl (fun s i => s.eraseIdx i) points
  else points

/-- `find_time_errors(gpx, remove)` (lines 51-67): apply the per-segment scan
and removal to every segment of every track.  The source mutates `gpx` in
place; we model the mutation by returning the updated structure. -/
def find_time_errors (gpx : GPX) (remove : Bool) : GPX :=
  ⟨gpx.tracks.map fun trk =>
    ⟨trk.segments.map fun trkseg =>
      ⟨findTimeErrorsSegPoints trkseg.points remove⟩⟩⟩

/-- Specification-level single pass over a segment: keep exactly the points
whose index does not appear in `last_time`-style positions removed per the
scan; a point at index `i` survives iff `i = 0` or its timestamp differs from
the timestamp of the point at index `i - 1` in the ORIGINAL list.  Stated
structurally with the running previous timestamp. -/
def dedupAux (last : LastTime) : List GPXTrackPoint → List GPXTrackPoint
  | [] => []
  | p :: ps =>
    if timeEq p.time last then dedupAux (.ts p.time) ps
    else p :: dedupAux (.ts p.time) ps

/-- Single pass that keeps only the non-flagged indices (the spec's
description of what descending-order deletion must be equivalent to),
counting indices from `i`. -/
def filterIdxFrom (flags : List Nat) (i : Nat) :
    List GPXTrackPoint → List GPXTrackPoint
  | [] => []
  | p :: ps =>
    if i ∈ flags then filterIdxFrom flags (i + 1) ps
    else p :: filterIdxFrom flags (i + 1) ps

/-- Shifting the running index of the scan shifts every reported index. -/
theorem scanErrors_shift (l : List GPXTrackPoint) (last : LastTime) (i : Nat) :
    scanErrors last i l = (scanErrors last 0 l).map (· + i) := by
  induction l generalizing last i with
  | nil => rfl
  | cons p ps ih =>
    simp only [scanErrors]
    by_cases h : timeEq p.time last = true
    · rw [if_pos h, if_pos h, ih (.ts p.time) (i + 1), ih (.ts p.time) 1,
        List.map_cons, List.map_map]
      simp only [Nat.zero_add]
      refine congrArg₂ _ rfl (List.map_congr_left fun k _ => ?_)
      simp only [Function.comp_apply]
      omega
    · rw [if_neg h, if_neg h, ih (.ts p.time) (i + 1), ih (.ts p.time) 1,
        List.map_map]
      refine List.map_congr_left fun k _ => ?_
      simp only [Function.comp_apply]
      omega

/-- The scan flags at most one index per point. -/
theorem scanErrors_length_le (l : List GPXTrackPoint) (last : LastTime)
    (i : Nat) : (scanErrors last i l).length ≤ l.length := by
  induction l generalizing last i with
  | nil => simp [scanErrors]
  | cons p ps ih =>
    simp only [scanErrors]
    by_cases h : timeEq p.time last = true
    · rw [if_pos h]
      simp only [List.length_cons]
      exact Nat.succ_le_succ (ih _ _)
    · rw [if_neg h]
      simp only [List.length_cons]
      exact Nat.le_succ_of_le (ih _ _)

/-- Deleting an index `≥ 1` from a non-empty list leaves the head alone. -/
theorem foldl_eraseIdx_map_succ (js : List Nat) (p : GPXTrackPoint)
    (ps : List GPXTrackPoint) :
    List.foldl (fun s i => s.eraseIdx i) (p :: ps) (js.map (· + 1)) =
      p :: List.foldl (fun s i => s.eraseIdx i) ps js := by
  induction js generalizing ps with
  | nil => rfl
  | cons j js ih =>
    simp only [List.map_cons, List.foldl_cons, List.eraseIdx_cons_succ]
    exact ih _

/-- Core equation: deleting the scanned error indices in descending order
(reverse, then `del` one at a time) produces exactly the structural
deduplication pass. -/
theorem foldl_eraseIdx_scanErrors (l : List GPXTrackPoint) (last : LastTime) :
    List.foldl (fun s i => s.eraseIdx i) l (scanErrors last 0 l).reverse =
      dedupAux last l := by
  induction l generalizing last with
  | nil => rfl
  | cons p ps ih =>
    simp only [scanErrors, dedupAux]
    by_cases h : timeEq p.time last = true
    · rw [if_pos h, if_pos h, scanErrors_shift ps (.ts p.time) 1,
        List.reverse_cons, ← List.map_reverse, List.foldl_append,
        foldl_eraseIdx_map_succ]
      simp only [List.foldl_cons, List.foldl_nil, List.eraseIdx_cons_zero]
      exact ih _
    · rw [if_neg h, if_neg h, scanErrors_shift ps (.ts p.time) 1,
        ← List.map_reverse, foldl_eraseIdx_map_succ, ih]

/-- An index below every flag that the scan can still reach is irrelevant to
the single-pass filter. -/
theorem filterIdxFrom_cons_lt (ps : List GPXTrackPoint) (m : Nat)
    (flags : List Nat) (j : Nat) (hm : m < j) :
    filterIdxFrom (m :: flags) j ps = filterIdxFrom flags j ps := by
  induction ps generalizing j with
  | nil => rfl
  | cons p ps ih =>
    simp only [filterIdxFrom, List.mem_cons]
    have hne : ¬ j = m := by omega
    by_cases h : j ∈ flags
    · rw [if_pos (Or.inr h), if_pos h]
      exact ih (j + 1) (by omega)
    · rw [if_neg (by tauto), if_neg h, ih (j + 1) (by omega)]

/-- The single-pass filter on the scanned error indices (shifted to start at
`i`) also produces the structural deduplication pass. -/
theorem filterIdxFrom_scanErrors (l : List GPXTrackPoint) (last : LastTime)
    (i : Nat) :
    filterIdxFrom ((scanErrors last 0 l).map (· + i)) i l = dedupAux last l := by
  induction l generalizing last i with
  | nil => rfl
  | cons p ps ih =>
    simp only [scanErrors, dedupAux]
    by_cases h : timeEq p.time last = true
    · rw [if_pos h, if_pos h, scanErrors_shift ps (.ts p.time) 1,
        List.map_cons, List.map_map]
      have hmap : ∀ E : List Nat,
          E.map ((fun x => x + i) ∘ fun x => x + 1) = E.map (· + (i + 1)) :=
        fun E => List.map_congr_left fun k _ => by
          simp only [Function.comp_apply]; omega
      rw [hmap]
      simp only [filterIdxFrom, Nat.zero_add, List.mem_cons, true_or, if_true]
      rw [filterIdxFrom_cons_lt _ _ _ _ (Nat.lt_succ_self i)]
      exact ih (.ts p.time) (i + 1)
    · rw [if_neg h, if_neg h, scanErrors_shift ps (.ts p.time) 1, List.map_map]
      have hmap : (scanErrors (.ts p.time) 0 ps).map
          ((fun x => x + i) ∘ fun x => x + 1) =
          (scanErrors (.ts p.time) 0 ps).map (· + (i + 1)) :=
        List.map_congr_left fun k _ => by
          simp only [Function.comp_apply]; omega
      rw [hmap]
      simp only [filterIdxFrom]
      have hnot : ¬ i ∈ (scanErrors (.ts p.time) 0 ps).map (· + (i + 1)) := by
        intro hmem
        rcases List.mem_map.mp hmem with ⟨k, _, hk⟩
        omega
      rw [if_neg hnot]
      exact congrArg _ (ih (.ts p.time) (i + 1))

/-- With removal requested, the per-segment pass of `find_time_errors` is
exactly the structural deduplication pass (whether or not any error was
found). -/
theorem findTimeErrorsSegPoints_remove_eq_dedup (points : List GPXTrackPoint) :
    findTimeErrorsSegPoints points true = dedupAux .sentinel points := by
  unfold findTimeErrorsSegPoints
  by_cases h : timeErrors points ≠ []
  · rw [if_pos ⟨h, rfl⟩]
    exact foldl_eraseIdx_scanErrors points .sentinel
  · rw [if_neg (by tauto)]
    have hnil : timeErrors points = [] := by tauto
    have := foldl_eraseIdx_scanErrors points .sentinel
    rw [timeErrors] at hnil
    rw [hnil] at this
    simpa using this

/-- The head of a deduplicated list never carries the running timestamp. -/
theorem dedupAux_head_ne (t : Option ℤ) (l : List GPXTrackPoint)
    (p : GPXTrackPoint) (hp : (dedupAux (.ts t) l).head? = some p) :
    p.time ≠ t := by
  induction l generalizing t with
  | nil => simp [dedupAux] at hp
  | cons q qs ih =>
    simp only [dedupAux, timeEq] at hp
    by_cases h : (q.time == t) = true
    · rw [if_pos h] at hp
      have hq : q.time = t := beq_iff_eq.mp h
      rw [← hq]
      exact ih q.time hp
    · rw [if_neg h] at hp
      simp only [List.head?_cons, Option.some_inj] at hp
      rw [← hp]
      exact fun hc => h (beq_iff_eq.mpr hc)

/-- The deduplication pass yields a list in which no two adjacent points share
a timestamp. -/
theorem dedupAux_chain (last : LastTime) (l : List GPXTrackPoint) :
    List.Chain' (fun a b => a.time ≠ b.time) (dedupAux last l) := by
  induction l generalizing last with
  | nil => simp [dedupAux]
  | cons p ps ih =>
    simp only [dedupAux]
    by_cases h : timeEq p.time last = true
    · rw [if_pos h]; exact ih _
    · rw [if_neg h]
      rw [List.chain'_cons']
      refine ⟨fun q hq => ?_, ih _⟩
      exact fun hc => dedupAux_head_ne p.time ps q hq (hc ▸ rfl)

/-- Every flag reported by the scan on the tail (shifted by one) is reported
by the scan on the whole segment. -/
theorem scanErrors_cons_superset (last : LastTime) (p : GPXTrackPoint)
    (ps : List GPXTrackPoint) (k : Nat)
    (hk : k ∈ (scanErrors (.ts p.time) 0 ps).map (· + 1)) :
    k ∈ scanErrors last 0 (p :: ps) := by
  simp only [scanErrors]
  rw [scanErrors_shift ps (.ts p.time) 1]
  by_cases h : timeEq p.time last = true
  · rw [if_pos h]
    exact List.mem_cons_of_mem _ hk
  · rw [if_neg h]
    exact hk

/-- Any point whose timestamp equals the timestamp of the point directly
before it in the segment is flagged by the scan, whatever the initial
`last_time` value. -/
theorem scanErrors_mem_of_adjacent_eq (l : List GPXTrackPoint)
    (last : LastTime) (i : Nat) (h1 : i < l.length) (h2 : i + 1 < l.length)
    (heq : (l.get ⟨i + 1, h2⟩).time = (l.get ⟨i, h1⟩).time) :
    i + 1 ∈ scanErrors last 0 l := by
  induction l generalizing last i with
  | nil => simp at h1
  | cons p ps ih =>
    cases i with
    | zero =>
      cases ps with
      | nil => simp at h2
      | cons q qs =>
        have hq : q.time = p.time := by
          simpa only [List.get_cons_succ, List.get_cons_zero] using heq
        apply scanErrors_cons_superset
        refine List.mem_map.mpr ⟨0, ?_, rfl⟩
        simp only [scanErrors, timeEq]
        rw [if_pos (beq_iff_eq.mpr hq)]
        exact List.mem_cons_self _ _
    | succ j =>
      have h1t : j < ps.length := by
        simpa using Nat.lt_of_succ_lt_succ h1
      have h2t : j + 1 < ps.length := by
        simpa using Nat.lt_of_succ_lt_succ h2
      have heqt : (ps.get ⟨j + 1, h2t⟩).time = (ps.get ⟨j, h1t⟩).time := by
        simpa only [List.get_cons_succ] using heq
      apply scanErrors_cons_superset
      exact List.mem_map.mpr ⟨j + 1, ih (.ts p.time) j h1t h2t heqt, rfl⟩

/-- On a segment in which no two adjacent points share a timestamp (and whose
head does not match the incoming `last_time`), the scan reports nothing. -/
theorem scanErrors_eq_nil (l : List GPXTrackPoint) (last : LastTime) (i : Nat)
    (hchain : List.Chain' (fun a b => a.time ≠ b.time) l)
    (hhead : ∀ p ∈ l.head?, timeEq p.time last = false) :
    scanErrors last i l = [] := by
  induction l generalizing last i with
  | nil => rfl
  | cons p ps ih =>
    have hf := hhead p (by simp)
    simp only [scanErrors]
    rw [if_neg (by simp [hf])]
    refine ih (.ts p.time) (i + 1) (List.chain'_cons'.mp hchain).2 ?_
    intro q hq
    have hne := (List.chain'_cons'.mp hchain).1 q hq
    simp only [timeEq, beq_eq_false_iff_ne]
    exact fun hc => hne hc.symm

/-- Length of the deduplicated segment: original length minus the number of
flagged indices. -/
theorem dedupAux_length (l : List GPXTrackPoint) (last : LastTime) :
    (dedupAux last l).length = l.length - (scanErrors last 0 l).length := by
  induction l generalizing last with
  | nil => rfl
  | cons p ps ih =>
    have hle := scanErrors_length_le ps (.ts p.time) 0
    simp only [dedupAux, scanErrors]
    by_cases h : timeEq p.time last = true
    · rw [if_pos h, if_pos h, ih, scanErrors_shift ps (.ts p.time) 1]
      simp only [List.length_cons, List.length_map]
      omega
    · rw [if_neg h, if_neg h, scanErrors_shift ps (.ts p.time) 1]
      simp only [List.length_cons, List.length_map, ih]
      omega

/-- One observable stage of the per-file pipeline in `main`
(postprocess.py lines 112-164), with the flags it is called with. -/
inductive Stage where
  | extract : Stage
  | parse : Stage
  | findTimeErrorsStage : Bool → Stage
  | smooth : Bool → Bool → Stage
  | elevationFill : Bool → Bool → Stage
  | summaryStats : Stage
  | mapRender : Stage
deriving DecidableEq, Repr

/-- The straight-line per-file body of `main` as the ordered list of stages it
performs: exiftool extraction (line 125), `gpxpy.parse` (line 131),
`find_time_errors(gpx, remove=True)` (line 133),
`gpx.smooth(vertical=False, horizontal=True)` (line 139),
`elevation_data.add_elevations(gpx, only_missing=False, smooth=True)`
(line 142), `gpx.smooth(vertical=True, horizontal=False)` (line 145),
the uphill/downhill and moving-data statistics (lines 156-159), and
`overlayGPX` plus the map save (lines 161-164).  The `if False:` blocks and
the GPX re-serialization after the unconditional `continue` (lines 167-170)
are never executed and so contribute no stage. -/
def perFileStages : List Stage :=
  [Stage.extract, Stage.parse, Stage.findTimeErrorsStage true,
   Stage.smooth false true, Stage.elevationFill false true,
   Stage.smooth true false, Stage.summaryStats, Stage.mapRender]

/-- Lexicographic comparison of two character lists by code point: Python's
`str < str`. -/
def strLt : List Char → List Char → Bool
  | [], [] => false
  | [], _ :: _ => true
  | _ :: _, [] => false
  | a :: xs, b :: ys =>
    if a.toNat < b.toNat then true
    else if b.toNat < a.toNat then false
    else strLt xs ys

/-- Python's comparison of `(str, str)` tuples: lexicographic on the
components. -/
def pairLt (x y : List Char × List Char) : Bool :=
  if strLt x.1 y.1 then true
  else if strLt y.1 x.1 then false
  else strLt x.2 y.2

/-- Stable insertion of an element into a sorted list: the element goes after
every element it is not strictly below. -/
def insertSorted (lt : α → α → Bool) (x : α) : List α → List α
  | [] => [x]
  | y :: ys => if lt x y then x :: y :: ys else y :: insertSorted lt x ys

/-- Stable ascending sort (insertion sort processing elements left to right):
the same function computed by Python's `list.sort()`, which is also a stable
ascending sort, so both produce the identical output list. -/
def pySort (lt : α → α → Bool) (l : List α) : List α :=
  l.foldl (fun acc x => insertSorted lt x acc) []

/-- The key `main` computes for a filename (line 102): the pair
`(fn[4:], fn[:4])` — id suffix first, 4-character segment prefix second. -/
def vidsegKey (fn : List Char) : List Char × List Char :=
  (fn.drop 4, fn.take 4)

/-- The filename reordering of `main` (lines 99-106): map each filename to
`(fn[4:], fn[:4])`, sort the pairs (`vidsegs.sort()`), and rebuild each
filename as `seg + vid`. -/
def sortFilenames (mp4 : List (List Char)) : List (List Char) :=
  let vidsegs := mp4.map vidsegKey
  let sortedVidsegs := pySort pairLt vidsegs
  sortedVidsegs.map (fun vs => vs.2 ++ vs.1)

/-- A Python exception, as far as `overlayGPX` is concerned: the arithmetic
`ZeroDivisionError`, or a named precondition error such as
`ValueError("...")` (which the source never raises). -/
inductive PyError where
  | zeroDivisionError : PyError
  | valueError : String → PyError
deriving DecidableEq, Repr

/-- The folium map document built by `overlayGPX`: initial center and zoom,
the polyline through every point, and the layer control child. -/
structure FoliumMap where
  location : ℚ × ℚ
  zoomStart : ℤ
  polyline : List (ℚ × ℚ)
  layerControl : Bool
deriving DecidableEq, Repr

/-- The flat `(latitude, longitude)` list `overlayGPX` collects (lines 76-80):
every point of every segment of every track, in traversal order. -/
def overlayPoints (gpx : GPX) : List (ℚ × ℚ) :=
  gpx.tracks.flatMap fun track =>
    track.segments.flatMap fun segment =>
      segment.points.map fun point => (point.latitude, point.longitude)

/-- `overlayGPX(gpx, zoom)` (lines 69-86): collect all points, compute the
mean latitude and longitude (`sum(...)/len(points)`, lines 81-82) — raising
Python's `ZeroDivisionError` when the list is empty — and build the map with
that center, the requested zoom, the polyline and a layer control. -/
def overlayGPX (gpx : GPX) (zoom : ℤ) : Except PyError FoliumMap :=
  let points := overlayPoints gpx
  if points.length = 0 then Except.error PyError.zeroDivisionError
  else
    Except.ok
      ⟨(((points.map Prod.fst).sum) / points.length,
        ((points.map Prod.snd).sum) / points.length),
       zoom, points, true⟩

/-- Does a renderer result consist of raising a named precondition error
(a `ValueError`-style rejection), as opposed to succeeding or crashing on
arithmetic? -/
def raisesNamedPreconditionError : Except PyError FoliumMap → Bool
  | Except.error (PyError.valueError _) => true
  | _ => false

/-- `shell(cmdline)` (lines 47-49): invoke `subprocess.run` on the FIXED
string `'echo %CD%'` and return its stdout.  The operating system is
modelled as a function from the command line actually executed to the stdout
it produces. -/
def shell (os : String → String) (cmdline : String) : String :=
  os "echo %CD%"


/-- `strLt` is asymmetric: two strings are never strictly below each other. -/
theorem strLt_asymm (a b : List Char) (h : strLt a b = true) :
    strLt b a = false := by
  induction a generalizing b with
  | nil =>
    cases b with
    | nil => simp [strLt] at h
    | cons y ys => simp [strLt]
  | cons x xs ih =>
    cases b with
    | nil => simp [strLt] at h
    | cons y ys =>
      simp only [strLt] at h ⊢
      by_cases hxy : x.toNat < y.toNat
      · rw [if_neg (by omega), if_pos hxy]
      · by_cases hyx : y.toNat < x.toNat
        · rw [if_neg hxy, if_pos hyx] at h
          simp at h
        · rw [if_neg hxy, if_neg hyx] at h
          rw [if_neg hyx, if_neg hxy]
          exact ih ys h

/-- `pairLt` is asymmetric. -/
theorem pairLt_asymm (x y : List Char × List Char) (h : pairLt x y = true) :
    pairLt y x = false := by
  unfold pairLt at h ⊢
  by_cases h1 : strLt x.1 y.1 = true
  · rw [if_neg (by simp [strLt_asymm _ _ h1]), if_pos h1]
  · by_cases h2 : strLt y.1 x.1 = true
    · rw [if_neg h1, if_pos h2] at h
      simp at h
    · rw [if_neg h1, if_neg h2] at h
      rw [if_neg h2, if_neg h1]
      exact strLt_asymm _ _ h

/-- The head of `insertSorted lt x l` is either `x` or the head of `l`. -/
theorem insertSorted_head_cases (lt : α → α → Bool) (x : α) (l : List α) :
    (insertSorted lt x l).head? = some x ∨
      (insertSorted lt x l).head? = l.head? := by
  cases l with
  | nil => left; rfl
  | cons y ys =>
    by_cases h : lt x y = true
    · left
      rw [insertSorted, if_pos h]
      rfl
    · right
      rw [insertSorted, if_neg h]
      rfl

/-- Inserting into a list with no descent (w.r.t. `lt`) yields a list with no
descent, given asymmetry of `lt`. -/
theorem insertSorted_chain (lt : α → α → Bool)
    (hasymm : ∀ a b, lt a b = true → lt b a = false)
    (x : α) (l : List α)
    (hl : List.Chain' (fun a b => lt b a = false) l) :
    List.Chain' (fun a b => lt b a = false) (insertSorted lt x l) := by
  induction l with
  | nil => simp [insertSorted]
  | cons y ys ih =>
    by_cases h : lt x y = true
    · rw [insertSorted, if_pos h]
      refine List.chain'_cons'.mpr ⟨?_, hl⟩
      intro z hz
      simp only [List.head?_cons, Option.mem_def, Option.some_inj] at hz
      rw [← hz]
      exact hasymm x y h
    · rw [insertSorted, if_neg h]
      have hys := (List.chain'_cons'.mp hl).2
      refine List.chain'_cons'.mpr ⟨?_, ih hys⟩
      intro z hz
      rcases insertSorted_head_cases lt x ys with hc | hc
      · rw [hc] at hz
        simp only [Option.mem_def, Option.some_inj] at hz
        rw [← hz]
        exact Bool.eq_false_iff.mpr h
      · rw [hc] at hz
        exact (List.chain'_cons'.mp hl).1 z hz

/-- `pySort` produces a list with no descent with respect to `lt`, for any
asymmetric `lt`. -/
theorem pySort_chain (lt : α → α → Bool)
    (hasymm : ∀ a b, lt a b = true → lt b a = false) (l : List α) :
    List.Chain' (fun a b => lt b a = false) (pySort lt l) := by
  suffices h : ∀ acc, List.Chain' (fun a b => lt b a = false) acc →
      List.Chain' (fun a b => lt b a = false)
        (l.foldl (fun acc x => insertSorted lt x acc) acc) by
    exact h [] (by simp)
  induction l with
  | nil => exact fun acc hacc => hacc
  | cons x xs ih =>
    intro acc hacc
    exact ih _ (insertSorted_chain lt hasymm x acc hacc)

/-- The first position of a segment is never flagged: the initial sentinel
`-1` compares unequal to every timestamp, `None` included. -/
theorem timeErrors_zero_not_mem (points : List GPXTrackPoint) :
    0 ∉ timeErrors points := by
  cases points with
  | nil => simp [timeErrors, scanErrors]
  | cons p ps =>
    have hstep : timeErrors (p :: ps) = scanErrors (.ts p.time) 1 ps := rfl
    rw [hstep, scanErrors_shift ps (.ts p.time) 1]
    intro h
    rcases List.mem_map.mp h with ⟨k, _, hk⟩
    omega

/-- A point placed in `[wpt t]`-style witnesses: only the timestamp matters
to the scanner, coordinates are fixed at zero. -/
def wpt (t : Option ℤ) : GPXTrackPoint :=
  ⟨t, 0, 0, none⟩

/-- Claim C1: for every track, after `find_time_errors(gpx, remove=True)`
returns, in every segment of every track no two temporally-adjacent surviving
points have equal timestamps. -/
theorem c1_post_clean_no_adjacent_duplicates (gpx : GPX) (trk : GPXTrack)
    (htrk : trk ∈ (find_time_errors gpx true).tracks)
    (trkseg : GPXTrackSegment) (hseg : trkseg ∈ trk.segments) :
    List.Chain' (fun a b => a.time ≠ b.time) trkseg.points := by
  simp only [find_time_errors, List.mem_map] at htrk
  rcases htrk with ⟨trk0, _, rfl⟩
  simp only [List.mem_map] at hseg
  rcases hseg with ⟨seg0, _, rfl⟩
  show List.Chain' _ (findTimeErrorsSegPoints seg0.points true)
  rw [findTimeErrorsSegPoints_remove_eq_dedup]
  exact dedupAux_chain _ _

/-- Witness for C1 at a concrete input. -/
theorem c1_post_clean_no_adjacent_duplicates_witness :
    List.Chain' (fun a b => a.time ≠ b.time)
      (GPXTrackSegment.mk [wpt (some 5), wpt (some 7)]).points :=
  c1_post_clean_no_adjacent_duplicates
    ⟨[⟨[⟨[wpt (some 5), wpt (some 5), wpt (some 7)]⟩]⟩]⟩
    ⟨[⟨[wpt (some 5), wpt (some 7)]⟩]⟩ (by decide)
    ⟨[wpt (some 5), wpt (some 7)]⟩ (by decide)

/-- Claim C2: every index of a consecutive run of equal timestamps after the
first occurrence is flagged (each such point shares the timestamp of its
immediate predecessor), and a segment with timestamps `[t, t, t, u]` reduces
to `[t, u]` under `remove=True`. -/
theorem c2_runs_flagged_and_tttu_reduces :
    (∀ (l : List GPXTrackPoint) (i : Nat) (h1 : i < l.length)
        (h2 : i + 1 < l.length),
        (l.get ⟨i + 1, h2⟩).time = (l.get ⟨i, h1⟩).time →
        i + 1 ∈ timeErrors l) ∧
      ∀ (t u : Option ℤ) (p1 p2 p3 p4 : GPXTrackPoint), t ≠ u →
        p1.time = t → p2.time = t → p3.time = t → p4.time = u →
        findTimeErrorsSegPoints [p1, p2, p3, p4] true = [p1, p4] := by
  constructor
  · intro l i h1 h2 heq
    exact scanErrors_mem_of_adjacent_eq l .sentinel i h1 h2 heq
  · intro t u p1 p2 p3 p4 hne h1 h2 h3 h4
    rw [findTimeErrorsSegPoints_remove_eq_dedup]
    have e2 : (p2.time == p1.time) = true := by
      rw [h1, h2]; exact beq_self_eq_true t
    have e3 : (p3.time == p2.time) = true := by
      rw [h2, h3]; exact beq_self_eq_true t
    have e4 : (p4.time == p3.time) = false := by
      rw [h3, h4]
      exact beq_eq_false_iff_ne.mpr fun hc => hne hc.symm
    simp [dedupAux, timeEq, e2, e3, e4]

/-- Witness for C2 at concrete inputs. -/
theorem c2_runs_flagged_and_tttu_reduces_witness :
    1 ∈ timeErrors [wpt (some 5), wpt (some 5)] ∧
      findTimeErrorsSegPoints
        [wpt (some 5), wpt (some 5), wpt (some 5), wpt (some 7)] true =
        [wpt (some 5), wpt (some 7)] :=
  ⟨c2_runs_flagged_and_tttu_reduces.1 [wpt (some 5), wpt (some 5)] 0
      (by decide) (by decide) (by decide),
    c2_runs_flagged_and_tttu_reduces.2 (some 5) (some 7) _ _ _ _ (by decide)
      rfl rfl rfl rfl⟩

/-- Claim C3: deleting the flagged indices one at a time in descending index
order yields exactly the single pass that keeps only the non-flagged indices;
in particular for flagged indices `[1, 2]` in a 4-point segment, deleting
index 2 then index 1 equals the single-pass filter. -/
theorem c3_descending_deletion_eq_filter :
    (∀ points : List GPXTrackPoint,
        ((timeErrors points).reverse).foldl (fun s i => s.eraseIdx i) points =
          filterIdxFrom (timeErrors points) 0 points) ∧
      ∀ p1 p2 p3 p4 : GPXTrackPoint,
        ([p1, p2, p3, p4].eraseIdx 2).eraseIdx 1 =
          filterIdxFrom [1, 2] 0 [p1, p2, p3, p4] := by
  constructor
  · intro points
    rw [timeErrors, foldl_eraseIdx_scanErrors]
    have hthis := filterIdxFrom_scanErrors points .sentinel 0
    have hmap : (scanErrors .sentinel 0 points).map (· + 0) =
        scanErrors .sentinel 0 points := by simp
    rw [hmap] at hthis
    exact hthis.symm
  · intro p1 p2 p3 p4
    rfl

/-- Claim C4: a segment in which no two adjacent points share a timestamp
(all-distinct, zero or one point, or non-adjacent equals such as `[t, u, t]`)
yields zero flagged errors, and `find_time_errors` leaves its point list
unchanged for either value of `remove`. -/
theorem c4_chain_segments_unchanged (points : List GPXTrackPoint)
    (hchain : List.Chain' (fun a b => a.time ≠ b.time) points) :
    timeErrors points = [] ∧
      ∀ remove : Bool, findTimeErrorsSegPoints points remove = points := by
  have hnil : timeErrors points = [] :=
    scanErrors_eq_nil points .sentinel 0 hchain fun p _ => rfl
  exact ⟨hnil, fun remove => by simp [findTimeErrorsSegPoints, hnil]⟩

/-- Witness for C4 at the `[t, u, t]` non-adjacent-duplicate input. -/
theorem c4_chain_segments_unchanged_witness :
    timeErrors [wpt (some 3), wpt (some 4), wpt (some 3)] = [] ∧
      ∀ remove : Bool,
        findTimeErrorsSegPoints [wpt (some 3), wpt (some 4), wpt (some 3)]
          remove = [wpt (some 3), wpt (some 4), wpt (some 3)] :=
  c4_chain_segments_unchanged _
    (List.chain'_cons.mpr ⟨by decide,
      List.chain'_cons.mpr ⟨by decide, List.chain'_singleton _⟩⟩)

/-- Claim C5: `find_time_errors(gpx, remove=False)` leaves every segment's
point list unchanged — detected errors are only reported, never removed. -/
theorem c5_report_only_never_removes (gpx : GPX) :
    find_time_errors gpx false = gpx := by
  have hseg : ∀ s : GPXTrackSegment,
      findTimeErrorsSegPoints s.points false = s.points := by
    intro s
    simp [findTimeErrorsSegPoints]
  have e1 : ∀ s : GPXTrackSegment, GPXTrackSegment.mk s.points = s :=
    fun s => rfl
  have e2 : ∀ t : GPXTrack, GPXTrack.mk t.segments = t := fun t => rfl
  simp [find_time_errors, hseg, e1, e2]

/-- Claim C10: two adjacent points whose timestamps are both missing compare
equal (so the second is flagged, and removal strictly shrinks the segment),
while the first point of a segment is never flagged — even with a `None`
timestamp — because the sentinel `-1` equals nothing. -/
theorem c10_none_equals_none_sentinel_never (points : List GPXTrackPoint) :
    (∀ (i : Nat) (h1 : i < points.length) (h2 : i + 1 < points.length),
        (points.get ⟨i, h1⟩).time = none →
        (points.get ⟨i + 1, h2⟩).time = none →
        i + 1 ∈ timeErrors points ∧
          (findTimeErrorsSegPoints points true).length < points.length) ∧
      0 ∉ timeErrors points := by
  refine ⟨fun i h1 h2 h3 h4 => ?_, timeErrors_zero_not_mem points⟩
  have hmem : i + 1 ∈ scanErrors .sentinel 0 points :=
    scanErrors_mem_of_adjacent_eq points .sentinel i h1 h2 (h4.trans h3.symm)
  refine ⟨hmem, ?_⟩
  rw [findTimeErrorsSegPoints_remove_eq_dedup, dedupAux_length]
  have hpos : 0 < (scanErrors .sentinel 0 points).length :=
    List.length_pos.mpr (List.ne_nil_of_mem hmem)
  omega

/-- Witness for C10 at a two-point all-`None` segment. -/
theorem c10_none_equals_none_sentinel_never_witness :
    (1 ∈ timeErrors [wpt none, wpt none] ∧
      (findTimeErrorsSegPoints [wpt none, wpt none] true).length <
        ([wpt none, wpt none] : List GPXTrackPoint).length) ∧
      0 ∉ timeErrors [wpt none, wpt none] :=
  ⟨(c10_none_equals_none_sentinel_never [wpt none, wpt none]).1 0
      (by decide) (by decide) rfl rfl,
    (c10_none_equals_none_sentinel_never [wpt none, wpt none]).2⟩

/-- Claim C6: for every input file, the per-file pipeline applies timestamp
error removal (`find_time_errors` with `remove=True`), then horizontal-only
smoothing, then elevation fill, then vertical-only smoothing, then summary
statistics, then map rendering, in that strict order; and no horizontal
smoothing occurs after the elevation fill. -/
theorem c6_pipeline_stage_order :
    perFileStages.indexOf (Stage.findTimeErrorsStage true) <
        perFileStages.indexOf (Stage.smooth false true) ∧
      perFileStages.indexOf (Stage.smooth false true) <
        perFileStages.indexOf (Stage.elevationFill false true) ∧
      perFileStages.indexOf (Stage.elevationFill false true) <
        perFileStages.indexOf (Stage.smooth true false) ∧
      perFileStages.indexOf (Stage.smooth true false) <
        perFileStages.indexOf Stage.summaryStats ∧
      perFileStages.indexOf Stage.summaryStats <
        perFileStages.indexOf Stage.mapRender ∧
      perFileStages.indexOf Stage.mapRender < perFileStages.length ∧
      (perFileStages.drop
          (perFileStages.indexOf (Stage.elevationFill false true) + 1)).all
        (fun s =>
          match s with
          | Stage.smooth _ h => !h
          | _ => true) = true := by
  decide

/-- Claim C7: the three example filenames are processed in recording order
`GX010001.mp4, GX020001.mp4, GX010002.mp4`; every filename is rebuilt
unchanged as its 4-character segment piece concatenated with its id suffix;
and in general the computed `(fn[4:], fn[:4])` keys come out of the sort with
no descending adjacent pair. -/
theorem c7_filename_ordering :
    sortFilenames
        ["GX010001.mp4".data, "GX020001.mp4".data, "GX010002.mp4".data] =
        ["GX010001.mp4".data, "GX020001.mp4".data, "GX010002.mp4".data] ∧
      (∀ fn : List Char, fn.take 4 ++ fn.drop 4 = fn) ∧
      ∀ mp4 : List (List Char),
        List.Chain' (fun a b => pairLt b a = false)
          (pySort pairLt (mp4.map vidsegKey)) :=
  ⟨by decide, fun fn => List.take_append_drop 4 fn,
    fun mp4 => pySort_chain pairLt pairLt_asymm _⟩

/-- A GPX document with one track, one segment and zero points. -/
def emptyTrackGPX : GPX :=
  ⟨[⟨[⟨[]⟩]⟩]⟩

/-- Counterexample to claim C8 as stated: on a track with zero points,
`overlayGPX` does NOT raise a named precondition error — it hits the
arithmetic `ZeroDivisionError` from `sum(...)/len(points)`. -/
theorem c8_empty_track_counterexample :
    raisesNamedPreconditionError (overlayGPX emptyTrackGPX 14) = false ∧
      overlayGPX emptyTrackGPX 14 = Except.error PyError.zeroDivisionError :=
  ⟨rfl, rfl⟩

/-- Amended claim C8: for every GPX document with zero points, `overlayGPX`
fails with the arithmetic `ZeroDivisionError` when computing the mean
latitude, and raises no explicit named precondition error. -/
theorem c8_empty_track_divide_by_zero (gpx : GPX) (zoom : ℤ)
    (hempty : overlayPoints gpx = []) :
    overlayGPX gpx zoom = Except.error PyError.zeroDivisionError ∧
      raisesNamedPreconditionError (overlayGPX gpx zoom) = false := by
  have h0 : (overlayPoints gpx).length = 0 := by rw [hempty]; rfl
  have hres : overlayGPX gpx zoom = Except.error PyError.zeroDivisionError := by
    simp [overlayGPX, h0]
  exact ⟨hres, by rw [hres]; rfl⟩

/-- Witness for the amended C8 at a concrete empty track. -/
theorem c8_empty_track_divide_by_zero_witness :
    overlayGPX emptyTrackGPX 12 = Except.error PyError.zeroDivisionError ∧
      raisesNamedPreconditionError (overlayGPX emptyTrackGPX 12) = false :=
  c8_empty_track_divide_by_zero emptyTrackGPX 12 rfl

/-- Claim C9: `shell` executes the same fixed command line `echo %CD%`
whatever its argument is, so in the same environment its result never depends
on the argument (a noninterference property). -/
theorem c9_shell_ignores_argument (os : String → String) (x y : String) :
    shell os x = shell os y ∧ shell os x = os "echo %CD%" :=
  ⟨rfl, rfl⟩
